import Mathlib

/-!
Verification of a small interactive Unix-style shell (single C++ translation
unit).  The pipeline is: tokenizer (quote/escape handling) → environment
expander → command parser (redirection separation) → executor (built-in
dispatch or child process).  Every definition below is a shallow embedding of
the corresponding function of the source file, translated statement by
statement; the OS interface (fork, open, dup2, execvp, waitpid, chdir,
getcwd, getenv) is modelled by explicit oracle records.
-/

namespace Shell

/-- The double-quote character. -/
def dq : Char := Char.ofNat 34

/-- The single-quote character. -/
def squote : Char := Char.ofNat 39

/-- The backslash character. -/
def bsl : Char := Char.ofNat 92

/-- C `isspace` on the default locale: space, tab, newline, vertical tab,
form feed, carriage return. -/
def is_space (c : Char) : Bool :=
  c = ' ' || c = Char.ofNat 9 || c = Char.ofNat 10 || c = Char.ofNat 11 ||
  c = Char.ofNat 12 || c = Char.ofNat 13

/-- `is_all_spaces` of the source: true when every character is whitespace. -/
def is_all_spaces (s : String) : Bool :=
  s.data.all is_space

/-- The scanning loop of `tokenize`.  State: remaining input, the two quote
mode flags (`in_single`, `in_double`), the accumulator `cur`, and the tokens
emitted so far.  Mirrors the `for` loop of the source, including the
backslash one-character lookahead inside double quotes. -/
def tokenizeAux : List Char → Bool → Bool → List Char → List (List Char) →
    List (List Char)
  | [], _, _, cur, acc => if cur.isEmpty then acc else acc ++ [cur]
  | c :: rest, in_s, in_d, cur, acc =>
    if in_d then
      if c = bsl && (rest.headD ' ' = dq || rest.headD ' ' = bsl) then
        tokenizeAux rest.tail in_s in_d (cur ++ [rest.headD ' ']) acc
      else if c = dq then
        tokenizeAux rest in_s false cur acc
      else
        tokenizeAux rest in_s in_d (cur ++ [c]) acc
    else if in_s then
      if c = squote then tokenizeAux rest false in_d cur acc
      else tokenizeAux rest true in_d (cur ++ [c]) acc
    else if is_space c then
      if cur.isEmpty then tokenizeAux rest in_s in_d [] acc
      else tokenizeAux rest in_s in_d [] (acc ++ [cur])
    else if c = dq then tokenizeAux rest in_s true cur acc
    else if c = squote then tokenizeAux rest true in_d cur acc
    else tokenizeAux rest in_s in_d (cur ++ [c]) acc
  termination_by l _ _ _ _ => l.length
  decreasing_by
    all_goals simp only [List.length_cons, List.length_tail, List.length_nil]
    all_goals omega

/-- `tokenize` of the source: split a raw line into word tokens honouring
single- and double-quote regions. -/
def tokenize (line : String) : List String :=
  (tokenizeAux line.data false false [] []).map (fun cs => String.mk cs)

/-- A character that may start a variable name: letter or underscore
(`isalpha(c) || c == '_'`). -/
def isNameStart (c : Char) : Bool := c.isAlpha || c = '_'

/-- A character that may continue a variable name: letter, digit or
underscore (`isalnum(c) || c == '_'`). -/
def isNameChar (c : Char) : Bool := c.isAlphanum || c = '_'

/-- `getenv` followed by the `if (val) out += val;` of the source: the value
of a set variable, nothing for an unset one. -/
def envVal (env : String → Option String) (name : List Char) : List Char :=
  match env (String.mk name) with
  | some v => v.data
  | none => []

/-- The scanning loop of `expand_env_in_token` over the character list of one
token.  On `$` followed by a name-start character the longest run of name
characters is consumed and replaced by the environment value; a `$` not
followed by a name-start character is copied through literally. -/
def expandAux (env : String → Option String) : List Char → List Char
  | [] => []
  | c :: rest =>
    if c = '$' then
      if !rest.isEmpty && isNameStart (rest.headD ' ') then
        envVal env (rest.headD ' ' :: rest.tail.takeWhile isNameChar) ++
          expandAux env (rest.tail.dropWhile isNameChar)
      else
        '$' :: expandAux env rest
    else
      c :: expandAux env rest
  termination_by l => l.length
  decreasing_by
    all_goals simp only [List.length_cons, List.length_tail]
    · have h1 : (rest.tail.dropWhile isNameChar).length ≤ rest.tail.length :=
        (List.dropWhile_suffix isNameChar).sublist.length_le
      have h2 := List.length_tail rest
      omega
    · omega
    · omega

/-- `expand_env_in_token` of the source. -/
def expand_env_in_token (env : String → Option String) (tok : String) :
    String :=
  String.mk (expandAux env tok.data)

/-- `expand_env` of the source: element-wise expansion of a token list. -/
def expand_env (env : String → Option String) (tokens : List String) :
    List String :=
  tokens.map (expand_env_in_token env)

/-- The `Command` structure of the source. -/
structure Command where
  argv : List String := []
  in_file : String := ""
  out_file : String := ""
  append : Bool := false
deriving Repr, DecidableEq

/-- Outcome of `parse_command`: the descriptor on success, the error string
(`err`) on failure. -/
inductive ParseResult where
  | ok (cmd : Command)
  | err (msg : String)
deriving Repr, DecidableEq

/-- True on the `ok` constructor. -/
def ParseResult.isOk : ParseResult → Bool
  | .ok _ => true
  | .err _ => false

/-- The scanning loop of `parse_command`.  A token equal to `<`, `>` or `>>`
consumes the next token as its filename operand (failing when there is
none); every other token is appended to `argv`; at the end an empty `argv`
is the Empty command failure. -/
def parseAux : List String → Command → ParseResult
  | [], cmd =>
    if cmd.argv.isEmpty then .err "Empty command" else .ok cmd
  | t :: rest, cmd =>
    if t = "<" || t = ">" || t = ">>" then
      match rest with
      | [] => .err ("Syntax error: missing file after redirection " ++ t)
      | file :: rest2 =>
        if t = "<" then
          parseAux rest2 { cmd with in_file := file }
        else
          parseAux rest2 { cmd with out_file := file, append := t = ">>" }
    else
      parseAux rest { cmd with argv := cmd.argv ++ [t] }

/-- `parse_command` of the source, starting from the fresh `Command{}`. -/
def parse_command (tokens : List String) : ParseResult :=
  parseAux tokens {}

/-- Termination status of a waited-for child, as decoded by
`WIFEXITED`/`WEXITSTATUS`: either a normal exit with a code, or an abnormal
termination (for instance by a signal). -/
inductive WaitStatus where
  | exited (code : Nat)
  | signaled (sig : Nat)
deriving Repr, DecidableEq

/-- Oracle for the system calls reached by `run_external`: whether `fork`
succeeds, whether each `open`/`dup2` for the two redirections succeeds,
whether `execvp` succeeds, whether `waitpid` succeeds, and the termination
status of the loaded program when `execvp` did succeed. -/
structure ExtWorld where
  forkOk : Bool
  inOpenOk : Bool
  inDupOk : Bool
  outOpenOk : Bool
  outDupOk : Bool
  execOk : Bool
  waitOk : Bool
  progStatus : WaitStatus
deriving Repr, DecidableEq

/-- The child side of `run_external`: input redirection is attempted only
when `in_file` is non-empty (failed `open` or `dup2` is `_exit(127)`), then
output redirection likewise, then `execvp`; a failed `execvp` is
`_exit(127)`, a successful one makes the child terminate with the program
status. -/
def child_status (w : ExtWorld) (cmd : Command) : WaitStatus :=
  if cmd.in_file ≠ "" && !w.inOpenOk then .exited 127
  else if cmd.in_file ≠ "" && !w.inDupOk then .exited 127
  else if cmd.out_file ≠ "" && !w.outOpenOk then .exited 127
  else if cmd.out_file ≠ "" && !w.outDupOk then .exited 127
  else if !w.execOk then .exited 127
  else w.progStatus

/-- `run_external` of the source, as seen from the parent: a failed `fork`
returns 1; a failed `waitpid` returns 1; otherwise the wait status of the
child is translated by `WIFEXITED(status) ? WEXITSTATUS(status) : 1`, where
`WEXITSTATUS` keeps the low 8 bits of the exit code. -/
def run_external (w : ExtWorld) (cmd : Command) : Nat :=
  if !w.forkOk then 1
  else if !w.waitOk then 1
  else
    match child_status w cmd with
    | .exited code => code % 256
    | .signaled _ => 1

/-- Oracle for the system state touched by built-ins: the environment (also
consulted by the expander), whether `chdir` to a given path succeeds, and
whether `getcwd` succeeds. -/
structure World where
  env : String → Option String
  chdirOk : String → Bool
  getcwdOk : Bool
  ext : ExtWorld

/-- `builtin_cd` of the source: with fewer than two argv entries the target
path is `$HOME` (or `/` when `HOME` is unset), otherwise `argv[1]`; a failed
`chdir` reports and returns 1, success returns 0. -/
def builtin_cd (w : World) (argv : List String) : Int :=
  let path :=
    match argv with
    | _ :: p :: _ => p
    | _ =>
      match w.env "HOME" with
      | some h => h
      | none => "/"
  if w.chdirOk path then 0 else 1

/-- `builtin_pwd` of the source: a failed `getcwd` returns 1, otherwise the
directory is printed and 0 returned. -/
def builtin_pwd (w : World) : Int :=
  if w.getcwdOk then 0 else 1

/-- `is_builtin` of the source. -/
def is_builtin (name : String) : Bool :=
  name = "cd" || name = "pwd" || name = "exit" || name = "help" ||
  name = "history"

/-- The lines printed by the `history` built-in: each recorded line prefixed
by its 1-based index and two spaces, in submission order. -/
def history_output (hist : List String) : List String :=
  (List.range hist.length).map
    (fun i => toString (i + 1) ++ "  " ++ hist.getD i "")

/-- What the dispatch at the bottom of the main loop does with one parsed
command: break out of the loop, run a built-in in the calling process, or
run an external command in a child. -/
inductive DispatchResult where
  | exitShell
  | didCd (status : Int)
  | didPwd (status : Int)
  | printedHelp
  | printedHistory (lines : List String)
  | external (status : Nat)
deriving Repr, DecidableEq

/-- True exactly on the dispatch outcome that forked a child process:
`run_external` is the only call site of `fork` in the source. -/
def spawns_child : DispatchResult → Bool
  | .external _ => true
  | _ => false

/-- The dispatch chain of the main loop on `name = cmd.argv[0]`: `exit`
breaks, `cd`/`pwd`/`help`/`history` are handled in the calling process, and
any other name goes to `run_external`. -/
def execute (w : World) (hist : List String) (cmd : Command) :
    DispatchResult :=
  let name := cmd.argv.headD ""
  if name = "exit" then .exitShell
  else if name = "cd" then .didCd (builtin_cd w cmd.argv)
  else if name = "pwd" then .didPwd (builtin_pwd w)
  else if name = "help" then .printedHelp
  else if name = "history" then .printedHistory (history_output hist)
  else .external (run_external w.ext cmd)

/-- The history update of the main loop: `push_back` has already happened;
when the size exceeds 200 the oldest entry is erased. -/
def clip (hist : List String) : List String :=
  if hist.length > 200 then hist.tail else hist

/-- What one iteration of the main loop does with a line, before dispatch:
skip an all-whitespace line; report a parse error unless it is the silent
Empty command outcome; on success record the raw line in the history and
hand the descriptor to dispatch. -/
inductive LineAction where
  | skippedBlank
  | emptyCommand
  | syntaxError (msg : String)
  | dispatched (cmd : Command)
deriving Repr, DecidableEq

/-- Whether the loop prints an error message for the action: only a syntax
error is surfaced (`if (err != "Empty command") std::cerr << err`). -/
def reported : LineAction → Bool
  | .syntaxError _ => true
  | _ => false

/-- One iteration of the main loop on one input line, up to dispatch: the
history after the iteration, and the action taken.  Mirrors lines 253–272 of
the source: `is_all_spaces` guard, `tokenize`, `expand_env`,
`parse_command`, the silent treatment of `Empty command`, and the
history push with the 200-entry clip. -/
def process_line (env : String → Option String) (hist : List String)
    (line : String) : List String × LineAction :=
  if is_all_spaces line then (hist, .skippedBlank)
  else
    match parse_command (expand_env env (tokenize line)) with
    | .err e =>
      (hist, if e = "Empty command" then .emptyCommand else .syntaxError e)
    | .ok cmd => (clip (hist ++ [line]), .dispatched cmd)

/-- A line is recorded in the history exactly when it is not all whitespace
and its expanded tokens parse into a non-empty command. -/
def parses_ok (env : String → Option String) (line : String) : Bool :=
  !is_all_spaces line &&
    (parse_command (expand_env env (tokenize line))).isOk

/-- The history produced by feeding a sequence of lines to the loop,
starting from the empty history. -/
def run_lines (env : String → Option String) (lines : List String) :
    List String :=
  lines.foldl (fun h l => (process_line env h l).1) []

/-- The sub-sequence of lines that parse successfully, in submission
order. -/
def recorded_lines (env : String → Option String) (lines : List String) :
    List String :=
  lines.filter (parses_ok env)

/-- The last `n` elements of a list (all of it when it is shorter). -/
def lastN (n : Nat) (xs : List α) : List α :=
  xs.drop (xs.length - n)

/-- Reference description of the parser scan used to state when the scan
completes without a dangling redirection operator: an operator token
consumes its successor, and fails only when there is none. -/
def scanOk : List String → Bool
  | [] => true
  | t :: rest =>
    if t = "<" || t = ">" || t = ">>" then
      match rest with
      | [] => false
      | _ :: rest2 => scanOk rest2
    else scanOk rest

/-- Reference description of the argv accumulated by the parser scan: the
tokens not consumed as a redirection operator or as its filename operand. -/
def scanArgv : List String → List String
  | [] => []
  | t :: rest =>
    if t = "<" || t = ">" || t = ">>" then
      match rest with
      | [] => []
      | _ :: rest2 => scanArgv rest2
    else t :: scanArgv rest

/-! ### Concrete fixtures for counterexamples and witnesses -/

/-- A concrete test environment: `HOME=/home/u`, everything else unset. -/
def envHOME : String → Option String := fun s =>
  if s = "HOME" then some "/home/u" else none

/-- A concrete test environment: `X=>`, everything else unset. -/
def envX : String → Option String := fun s =>
  if s = "X" then some ">" else none

/-- The line `echo $HOME` with the variable reference wrapped in single
quotes. -/
def echoQuotedHOME : String :=
  String.mk (['e', 'c', 'h', 'o', ' '] ++
    squote :: (['$', 'H', 'O', 'M', 'E'] ++ [squote]))

/-- An oracle on which every system call succeeds and the program exits 0,
for concrete witnesses. -/
def extAllOk : ExtWorld :=
  { forkOk := true, inOpenOk := true, inDupOk := true, outOpenOk := true,
    outDupOk := true, execOk := true, waitOk := true,
    progStatus := .exited 0 }

/-- A world on which every system call succeeds, for concrete witnesses. -/
def wAllOk : World :=
  { env := envHOME, chdirOk := fun _ => true, getcwdOk := true,
    ext := extAllOk }

/-! ### Helper lemmas -/

lemma takeWhile_dropWhile_name (p : Char → Bool) (name rest : List Char)
    (h1 : ∀ c ∈ name, p c = true)
    (h2 : ∀ r, rest.head? = some r → p r = false) :
    (name ++ rest).takeWhile p = name ∧ (name ++ rest).dropWhile p = rest := by
  induction name with
  | nil =>
    cases rest with
    | nil => simp
    | cons r rs =>
      have hr := h2 r rfl
      simp [List.takeWhile_cons, List.dropWhile_cons, hr]
  | cons a as ih =>
    have ha : p a = true := h1 a (by simp)
    have ih2 := ih (fun c hc => h1 c (by simp [hc]))
    simp [List.takeWhile_cons, List.dropWhile_cons, ha, ih2.1, ih2.2]

lemma expand_env_length (env : String → Option String) (ts : List String) :
    (expand_env env ts).length = ts.length := by
  simp [expand_env]

lemma expand_env_getD (env : String → Option String) (ts : List String) :
    ∀ i, i < ts.length →
      (expand_env env ts).getD i "" = expand_env_in_token env (ts.getD i "") := by
  induction ts with
  | nil => intro i h; simp at h
  | cons a as ih =>
    intro i h
    cases i with
    | zero => simp [expand_env]
    | succ n =>
      have := ih n (by simpa using h)
      simpa [expand_env] using this


/-! ### Claims -/

/-- C3: inside double-quote mode, a backslash immediately followed by a
double quote or by another backslash consumes both characters and appends
the single escaped character; a backslash followed by any other character,
or final in the input, is appended literally as one backslash without
consuming the next character; an unescaped double quote exits the mode
without being appended; every other character is appended as-is. -/
theorem c3_double_quote_escaping :
    (∀ s cur acc rest, tokenizeAux (bsl :: dq :: rest) s true cur acc =
        tokenizeAux rest s true (cur ++ [dq]) acc)
    ∧ (∀ s cur acc rest, tokenizeAux (bsl :: bsl :: rest) s true cur acc =
        tokenizeAux rest s true (cur ++ [bsl]) acc)
    ∧ (∀ s cur acc rest c, c ≠ dq → c ≠ bsl →
        tokenizeAux (bsl :: c :: rest) s true cur acc =
        tokenizeAux (c :: rest) s true (cur ++ [bsl]) acc)
    ∧ (∀ s cur acc, tokenizeAux [bsl] s true cur acc =
        tokenizeAux [] s true (cur ++ [bsl]) acc)
    ∧ (∀ s cur acc rest, tokenizeAux (dq :: rest) s true cur acc =
        tokenizeAux rest s false cur acc)
    ∧ (∀ s cur acc rest c, c ≠ dq → c ≠ bsl →
        tokenizeAux (c :: rest) s true cur acc =
        tokenizeAux rest s true (cur ++ [c]) acc) := by
  refine ⟨?_, ?_, ?_, ?_, ?_, ?_⟩
  · intro s cur acc rest
    simp [tokenizeAux, dq, bsl]
  · intro s cur acc rest
    simp [tokenizeAux, dq, bsl]
  · intro s cur acc rest c h1 h2
    rw [tokenizeAux]
    simp [dq, bsl] at h1 h2
    simp [dq, bsl, h1, h2]
  · intro s cur acc
    simp [tokenizeAux, dq, bsl]
  · intro s cur acc rest
    simp [tokenizeAux, dq, bsl]
  · intro s cur acc rest c h1 h2
    rw [tokenizeAux]
    simp [dq, bsl] at h1 h2
    simp [dq, bsl, h1, h2]

/-- Witness for C3 at concrete inputs: an ordinary character after a
backslash, and an ordinary character on its own. -/
theorem c3_double_quote_escaping_witness :
    tokenizeAux [bsl, 'a', 'b'] false true [] [] =
      tokenizeAux ['a', 'b'] false true [bsl] []
    ∧ tokenizeAux ['a', 'b'] false true [] [] =
      tokenizeAux ['b'] false true ['a'] [] :=
  ⟨c3_double_quote_escaping.2.2.1 false [] [] ['b'] 'a' (by decide) (by decide),
   c3_double_quote_escaping.2.2.2.2.2 false [] [] ['b'] 'a' (by decide)
     (by decide)⟩

/-- C5: per-token expansion replaces `$` followed by a name-start character
plus the longest run of name characters with the environment value of that
name (nothing when unset), copies a `$` not followed by a name-start
character through literally, and `expand_env` is element-wise and
order-preserving with unchanged length; with `HOME=/home/u` the token
`$HOME/x` expands to `/home/u/x`, an unset `$FOO` expands to the empty
string, and a lone `$` stays `$`. -/
theorem c5_env_expansion :
    (∀ env d name rest, isNameStart d = true →
        (∀ c ∈ name, isNameChar c = true) →
        isNameChar (rest.headD ' ') = false →
        expandAux env ('$' :: d :: (name ++ rest)) =
          envVal env (d :: name) ++ expandAux env rest)
    ∧ (∀ env rest, isNameStart (rest.headD ' ') = false →
        expandAux env ('$' :: rest) = '$' :: expandAux env rest)
    ∧ (∀ env c rest, c ≠ '$' →
        expandAux env (c :: rest) = c :: expandAux env rest)
    ∧ (∀ env ts, (expand_env env ts).length = ts.length)
    ∧ (∀ env ts i, i < ts.length →
        (expand_env env ts).getD i "" =
          expand_env_in_token env (ts.getD i ""))
    ∧ expand_env envHOME ["$HOME/x"] = ["/home/u/x"]
    ∧ expand_env envHOME ["$FOO"] = [""]
    ∧ expand_env envHOME ["$"] = ["$"] := by
  refine ⟨?_, ?_, ?_, expand_env_length, expand_env_getD, ?_, ?_, ?_⟩
  · intro env d name rest h1 h2 h3
    have h2o : ∀ r, rest.head? = some r → isNameChar r = false := by
      intro r hr
      cases rest with
      | nil => simp at hr
      | cons x xs =>
        simp at hr
        subst hr
        simpa using h3
    have hw := takeWhile_dropWhile_name isNameChar name rest h2 h2o
    rw [expandAux]
    simp [h1, hw.1, hw.2]
  · intro env rest h
    cases rest with
    | nil => simp [expandAux]
    | cons x xs =>
      rw [expandAux]
      simp at h
      simp [h]
  · intro env c rest h
    rw [expandAux]
    simp [h]
  · simp [expand_env, expand_env_in_token, expandAux, envVal, envHOME,
      isNameStart, isNameChar]
  · simp [expand_env, expand_env_in_token, expandAux, envVal, envHOME,
      isNameStart, isNameChar]
  · simp [expand_env, expand_env_in_token, expandAux, envVal, envHOME,
      isNameStart, isNameChar]

/-- Witness for C5 at concrete inputs: the name `HOME` greedily consumed out
of `$HOME/x`, a literal `$` before a non-name character, an ordinary
character, and the element-wise lookup at index 0. -/
theorem c5_env_expansion_witness :
    expandAux envHOME ('$' :: 'H' :: (['O', 'M', 'E'] ++ ['/', 'x'])) =
      envVal envHOME ('H' :: ['O', 'M', 'E']) ++ expandAux envHOME ['/', 'x']
    ∧ expandAux envHOME ('$' :: ['1']) = '$' :: expandAux envHOME ['1']
    ∧ expandAux envHOME ('a' :: []) = 'a' :: expandAux envHOME []
    ∧ (expand_env envHOME ["$"]).getD 0 "" =
      expand_env_in_token envHOME (["$"].getD 0 "") :=
  ⟨c5_env_expansion.1 envHOME 'H' ['O', 'M', 'E'] ['/', 'x'] (by decide)
      (by decide) (by decide),
   c5_env_expansion.2.1 envHOME ['1'] (by decide),
   c5_env_expansion.2.2.1 envHOME 'a' [] (by decide),
   c5_env_expansion.2.2.2.2.1 envHOME ["$"] 0 (by decide)⟩

lemma scan_single_mode (w : List Char) (hw : ∀ c ∈ w, c ≠ squote) :
    ∀ rest cur acc, tokenizeAux (w ++ squote :: rest) true false cur acc =
      tokenizeAux rest false false (cur ++ w) acc := by
  induction w with
  | nil =>
    intro rest cur acc
    simp [tokenizeAux]
  | cons c w2 ih =>
    intro rest cur acc
    have hc : c ≠ squote := hw c (by simp)
    have hw2 : ∀ x ∈ w2, x ≠ squote := fun x hx => hw x (by simp [hx])
    rw [List.cons_append, tokenizeAux]
    simp only [if_false, Bool.false_eq_true, if_true]
    simp [hc, ih hw2]

lemma scan_double_mode (w : List Char) (hw : ∀ c ∈ w, c ≠ dq ∧ c ≠ bsl) :
    ∀ rest cur acc s, tokenizeAux (w ++ dq :: rest) s true cur acc =
      tokenizeAux rest s false (cur ++ w) acc := by
  induction w with
  | nil =>
    intro rest cur acc s
    simp [tokenizeAux, dq, bsl]
  | cons c w2 ih =>
    intro rest cur acc s
    have hc := hw c (by simp)
    have hw2 : ∀ x ∈ w2, x ≠ dq ∧ x ≠ bsl := fun x hx => hw x (by simp [hx])
    rw [List.cons_append, tokenizeAux]
    simp [hc.1, hc.2, ih hw2]

lemma scan_unquoted (w : List Char)
    (hw : ∀ c ∈ w, is_space c = false ∧ c ≠ dq ∧ c ≠ squote) :
    ∀ rest cur acc, tokenizeAux (w ++ rest) false false cur acc =
      tokenizeAux rest false false (cur ++ w) acc := by
  induction w with
  | nil =>
    intro rest cur acc
    simp
  | cons c w2 ih =>
    intro rest cur acc
    have hc := hw c (by simp)
    have hw2 : ∀ x ∈ w2, is_space x = false ∧ x ≠ dq ∧ x ≠ squote :=
      fun x hx => hw x (by simp [hx])
    rw [List.cons_append, tokenizeAux]
    simp [hc.1, hc.2.1, hc.2.2, ih hw2]


/-- C9: quoting does not suppress variable expansion — the tokenizer strips
the quote characters, expansion runs afterwards uniformly on every token,
so a quoted word produces the same token as the bare word, and the line
with `$HOME` in single quotes yields the same expanded tokens and the same
parsed command as the unquoted line. -/
theorem c9_quoting_does_not_suppress_expansion :
    (∀ w : List Char, w ≠ [] →
        (∀ c ∈ w, is_space c = false ∧ c ≠ dq ∧ c ≠ squote ∧ c ≠ bsl) →
        tokenize (String.mk (squote :: (w ++ [squote]))) =
          tokenize (String.mk w)
        ∧ tokenize (String.mk (dq :: (w ++ [dq]))) = tokenize (String.mk w))
    ∧ (∀ env, expand_env env (tokenize echoQuotedHOME) =
          expand_env env (tokenize "echo $HOME")
        ∧ parse_command (expand_env env (tokenize echoQuotedHOME)) =
          parse_command (expand_env env (tokenize "echo $HOME"))) := by
  constructor
  · intro w hne hw
    have h1 : ∀ c ∈ w, c ≠ squote := fun c hc => (hw c hc).2.2.1
    have h2 : ∀ c ∈ w, c ≠ dq ∧ c ≠ bsl :=
      fun c hc => ⟨(hw c hc).2.1, (hw c hc).2.2.2⟩
    have h3 : ∀ c ∈ w, is_space c = false ∧ c ≠ dq ∧ c ≠ squote :=
      fun c hc => ⟨(hw c hc).1, (hw c hc).2.1, (hw c hc).2.2.1⟩
    have step3 : tokenizeAux w false false [] [] =
        tokenizeAux [] false false w [] := by
      have := scan_unquoted w h3 [] [] []
      simpa using this
    constructor
    · have step1 : tokenizeAux (squote :: (w ++ [squote])) false false [] [] =
          tokenizeAux (w ++ [squote]) true false [] [] := by
        rw [tokenizeAux]
        simp [squote, dq, is_space]
      have step2 : tokenizeAux (w ++ [squote]) true false [] [] =
          tokenizeAux [] false false w [] := by
        have := scan_single_mode w h1 [] [] []
        simpa using this
      show (tokenizeAux (squote :: (w ++ [squote])) false false [] []).map _ =
        (tokenizeAux w false false [] []).map _
      rw [step1, step2, step3]
    · have step1 : tokenizeAux (dq :: (w ++ [dq])) false false [] [] =
          tokenizeAux (w ++ [dq]) false true [] [] := by
        rw [tokenizeAux]
        simp [squote, dq, is_space]
      have step2 : tokenizeAux (w ++ [dq]) false true [] [] =
          tokenizeAux [] false false w [] := by
        have := scan_double_mode w h2 [] [] [] false
        simpa using this
      show (tokenizeAux (dq :: (w ++ [dq])) false false [] []).map _ =
        (tokenizeAux w false false [] []).map _
      rw [step1, step2, step3]
  · intro env
    have ht : tokenize echoQuotedHOME = tokenize "echo $HOME" := by
      simp [echoQuotedHOME, tokenize, tokenizeAux, squote, dq, bsl, is_space]
    exact ⟨by rw [ht], by rw [ht]⟩

/-- Witness for C9 at the concrete word `$HOME`. -/
theorem c9_quoting_does_not_suppress_expansion_witness :
    tokenize (String.mk (squote :: (['$', 'H', 'O', 'M', 'E'] ++ [squote]))) =
      tokenize (String.mk ['$', 'H', 'O', 'M', 'E'])
    ∧ tokenize (String.mk (dq :: (['$', 'H', 'O', 'M', 'E'] ++ [dq]))) =
      tokenize (String.mk ['$', 'H', 'O', 'M', 'E']) :=
  c9_quoting_does_not_suppress_expansion.1 ['$', 'H', 'O', 'M', 'E']
    (by decide) (by decide)

lemma parseAux_ok_argv (l : List String) (cmd : Command) :
    ∀ cmd2, parseAux l cmd = .ok cmd2 → cmd2.argv.isEmpty = false := by
  induction l, cmd using parseAux.induct with
  | case1 cmd hc =>
    intro cmd2 h
    rw [parseAux] at h
    simp [List.isEmpty_iff.mp hc] at h
  | case2 cmd hc =>
    intro cmd2 h
    rw [parseAux] at h
    have hne : ¬cmd.argv = [] := by simpa [List.isEmpty_iff] using hc
    simp [hne] at h
    simp [← h]
    simpa using hc
  | case3 t cmd hop =>
    intro cmd2 h
    rw [parseAux] at h
    simp [hop] at h
  | case4 cmd file rest2 hop ih =>
    intro cmd2 h
    rw [parseAux] at h
    simp at h
    exact ih cmd2 h
  | case5 t cmd hop file rest2 hne ih =>
    intro cmd2 h
    have hor : t = ">" ∨ t = ">>" := by
      rcases Bool.or_eq_true_iff.mp hop with hx | hx
      · rcases Bool.or_eq_true_iff.mp hx with hy | hy
        · exact absurd (of_decide_eq_true hy) hne
        · exact Or.inl (of_decide_eq_true hy)
      · exact Or.inr (of_decide_eq_true hx)
    rw [parseAux] at h
    simp [hne, hor] at h
    exact ih cmd2 h
  | case6 t rest cmd hnot ih =>
    intro cmd2 h
    rw [parseAux.eq_def] at h
    simp [hnot] at h
    exact ih cmd2 h

lemma parseAux_append (l2 : List String) (l1 : List String) (cmd : Command) :
    ∀ cmd2, parseAux l1 cmd = .ok cmd2 →
      parseAux (l1 ++ l2) cmd = parseAux l2 cmd2 := by
  induction l1, cmd using parseAux.induct with
  | case1 cmd hc =>
    intro cmd2 h
    rw [parseAux] at h
    simp [List.isEmpty_iff.mp hc] at h
  | case2 cmd hc =>
    intro cmd2 h
    rw [parseAux] at h
    have hne : ¬cmd.argv = [] := by simpa [List.isEmpty_iff] using hc
    simp [hne] at h
    simp [← h]
  | case3 t cmd hop =>
    intro cmd2 h
    rw [parseAux] at h
    simp [hop] at h
  | case4 cmd file rest2 hop ih =>
    intro cmd2 h
    rw [parseAux] at h
    simp at h
    rw [List.cons_append, List.cons_append, parseAux.eq_def]
    simp [ih cmd2 h]
  | case5 t cmd hop file rest2 hne ih =>
    intro cmd2 h
    have hor : t = ">" ∨ t = ">>" := by
      rcases Bool.or_eq_true_iff.mp hop with hx | hx
      · rcases Bool.or_eq_true_iff.mp hx with hy | hy
        · exact absurd (of_decide_eq_true hy) hne
        · exact Or.inl (of_decide_eq_true hy)
      · exact Or.inr (of_decide_eq_true hx)
    rw [parseAux] at h
    simp [hne, hor] at h
    rw [List.cons_append, List.cons_append, parseAux.eq_def]
    simp [hne, hor, hop, ih cmd2 h]
  | case6 t rest cmd hnot ih =>
    intro cmd2 h
    rw [parseAux.eq_def] at h
    simp [hnot] at h
    rw [List.cons_append, parseAux.eq_def]
    simp [hnot, ih cmd2 h]

/-- C8: when the same redirection operator (or the two output operators)
occurs more than once with a filename operand, the last occurrence wins:
appending one more redirection pair to an already successfully parsed token
sequence overwrites the recorded filename (and, for output, the append
mode). -/
theorem c8_last_redirection_wins :
    (∀ ts cmd f, parse_command ts = .ok cmd →
        parse_command (ts ++ ["<", f]) = .ok { cmd with in_file := f })
    ∧ (∀ ts cmd f, parse_command ts = .ok cmd →
        parse_command (ts ++ [">", f]) =
          .ok { cmd with out_file := f, append := false })
    ∧ (∀ ts cmd f, parse_command ts = .ok cmd →
        parse_command (ts ++ [">>", f]) =
          .ok { cmd with out_file := f, append := true }) := by
  have hne : ∀ ts (cmd : Command), parse_command ts = .ok cmd →
      cmd.argv.isEmpty = false :=
    fun ts cmd h => parseAux_ok_argv ts {} cmd h
  refine ⟨?_, ?_, ?_⟩
  all_goals intro ts cmd f h
  all_goals rw [parse_command, parseAux_append _ ts {} cmd h]
  all_goals rw [parseAux.eq_def]
  all_goals simp [parseAux, hne ts cmd h]

/-- Witness for C8: a command with two input and two output redirections
keeps the later filename of each kind. -/
theorem c8_last_redirection_wins_witness :
    parse_command (["cmd", "<", "a"] ++ ["<", "b"]) =
      .ok { argv := ["cmd"], in_file := "b", out_file := "", append := false } :=
  c8_last_redirection_wins.1 ["cmd", "<", "a"]
    { argv := ["cmd"], in_file := "a", out_file := "", append := false } "b"
    (by decide)


lemma parseAux_argv_eq (l : List String) (cmd : Command) :
    ∀ cmd2, parseAux l cmd = .ok cmd2 → cmd2.argv = cmd.argv ++ scanArgv l := by
  induction l, cmd using parseAux.induct with
  | case1 cmd hc =>
    intro cmd2 h
    rw [parseAux] at h
    simp [List.isEmpty_iff.mp hc] at h
  | case2 cmd hc =>
    intro cmd2 h
    rw [parseAux] at h
    have hne : ¬cmd.argv = [] := by simpa [List.isEmpty_iff] using hc
    simp [hne] at h
    simp [← h, scanArgv]
  | case3 t cmd hop =>
    intro cmd2 h
    rw [parseAux] at h
    simp [hop] at h
  | case4 cmd file rest2 hop ih =>
    intro cmd2 h
    rw [parseAux] at h
    simp at h
    simpa [scanArgv] using ih cmd2 h
  | case5 t cmd hop file rest2 hne ih =>
    intro cmd2 h
    have hor : t = ">" ∨ t = ">>" := by
      rcases Bool.or_eq_true_iff.mp hop with hx | hx
      · rcases Bool.or_eq_true_iff.mp hx with hy | hy
        · exact absurd (of_decide_eq_true hy) hne
        · exact Or.inl (of_decide_eq_true hy)
      · exact Or.inr (of_decide_eq_true hx)
    rw [parseAux] at h
    simp [hne, hor] at h
    have hsc : scanArgv (t :: file :: rest2) = scanArgv rest2 := by
      rcases hor with rfl | rfl <;> simp [scanArgv]
    rw [hsc]
    simpa using ih cmd2 h
  | case6 t rest cmd hnot ih =>
    intro cmd2 h
    rw [parseAux.eq_def] at h
    simp [hnot] at h
    have := ih cmd2 h
    have hsc : scanArgv (t :: rest) = t :: scanArgv rest := by
      rw [scanArgv.eq_def]
      simp [hnot]
    simp [hsc, this]

lemma parseAux_empty_iff (l : List String) (cmd : Command) :
    parseAux l cmd = .err "Empty command" ↔
      scanOk l = true ∧ cmd.argv = [] ∧ scanArgv l = [] := by
  induction l, cmd using parseAux.induct with
  | case1 cmd hc =>
    rw [parseAux]
    simp [List.isEmpty_iff.mp hc, scanOk, scanArgv]
  | case2 cmd hc =>
    rw [parseAux]
    have hne : ¬cmd.argv = [] := by simpa [List.isEmpty_iff] using hc
    simp [hne, scanOk, scanArgv]
  | case3 t cmd hop =>
    rw [parseAux]
    have hmsg : "Syntax error: missing file after redirection " ++ t ≠
        "Empty command" := by
      intro heq
      have := congrArg String.length heq
      rw [String.length_append] at this
      have h44 : ("Syntax error: missing file after redirection ").length = 45 := by
        decide
      have h13 : ("Empty command").length = 13 := by decide
      simp [h44, h13] at this
      omega
    have hsc : scanOk [t] = false := by
      rw [scanOk.eq_def]
      simp [hop]
    simp [hop, hmsg, hsc]
  | case4 cmd file rest2 hop ih =>
    rw [parseAux]
    simp only [scanOk, scanArgv]
    simpa using ih
  | case5 t cmd hop file rest2 hne ih =>
    have hor : t = ">" ∨ t = ">>" := by
      rcases Bool.or_eq_true_iff.mp hop with hx | hx
      · rcases Bool.or_eq_true_iff.mp hx with hy | hy
        · exact absurd (of_decide_eq_true hy) hne
        · exact Or.inl (of_decide_eq_true hy)
      · exact Or.inr (of_decide_eq_true hx)
    rw [parseAux]
    have h1 : scanOk (t :: file :: rest2) = scanOk rest2 := by
      rw [scanOk.eq_def]
      simp [hop]
    have h2 : scanArgv (t :: file :: rest2) = scanArgv rest2 := by
      rw [scanArgv.eq_def]
      simp [hop]
    rw [h1, h2]
    simp [hne, hor]
    simpa using ih
  | case6 t rest cmd hnot ih =>
    rw [parseAux.eq_def]
    have h1 : scanOk (t :: rest) = scanOk rest := by
      rw [scanOk.eq_def]
      simp [hnot]
    have h2 : scanArgv (t :: rest) = t :: scanArgv rest := by
      rw [scanArgv.eq_def]
      simp [hnot]
    rw [h1, h2]
    simp [hnot]
    rw [ih]
    simp

/-- C4: a redirection operator token with no token after it is a syntax
error naming the operator; an operator with a following token consumes that
token as its filename and continues the scan with `argv` untouched (so
neither the operator nor its filename is ever part of `argv`, which equals
the scan of non-redirection tokens); the scan that completes with an empty
`argv` is exactly the Empty command failure; and the loop surfaces a syntax
error while the Empty command failure stays silent. -/
theorem c4_redirection_errors :
    (∀ cmd t, (t = "<" ∨ t = ">" ∨ t = ">>") →
        parseAux [t] cmd =
          .err ("Syntax error: missing file after redirection " ++ t))
    ∧ (∀ cmd t f rest, (t = "<" ∨ t = ">" ∨ t = ">>") →
        parseAux (t :: f :: rest) cmd =
          parseAux rest
            (if t = "<" then { cmd with in_file := f }
             else { cmd with out_file := f, append := t = ">>" }))
    ∧ (∀ ts cmd, parse_command ts = .ok cmd → cmd.argv = scanArgv ts)
    ∧ (∀ t f rest, (t = "<" ∨ t = ">" ∨ t = ">>") →
        scanArgv (t :: f :: rest) = scanArgv rest)
    ∧ (∀ ts, parse_command ts = .err "Empty command" ↔
        scanOk ts = true ∧ scanArgv ts = [])
    ∧ (∀ env hist line e, is_all_spaces line = false →
        parse_command (expand_env env (tokenize line)) = .err e →
        (process_line env hist line).2 =
          (if e = "Empty command" then .emptyCommand else .syntaxError e))
    ∧ (∀ msg, reported (.syntaxError msg) = true)
    ∧ reported .emptyCommand = false := by
  refine ⟨?_, ?_, ?_, ?_, ?_, ?_, fun msg => rfl, rfl⟩
  · intro cmd t h
    rcases h with rfl | rfl | rfl <;> simp [parseAux]
  · intro cmd t f rest h
    rcases h with rfl | rfl | rfl <;> simp [parseAux]
  · intro ts cmd h
    simpa using parseAux_argv_eq ts {} cmd h
  · intro t f rest h
    rcases h with rfl | rfl | rfl <;> simp [scanArgv]
  · intro ts
    rw [parse_command, parseAux_empty_iff]
    simp
  · intro env hist line e h1 h2
    rw [process_line]
    simp [h1, h2]

/-- Witness for C4 at concrete inputs: a trailing `<` is a syntax error, a
`>` with operand consumes it, a plain word reaches `argv`, an operator pair
vanishes from the scanned argv, and the loop reports the dangling-operator
line. -/
theorem c4_redirection_errors_witness :
    parseAux ["<"] {} =
      .err ("Syntax error: missing file after redirection " ++ "<")
    ∧ parseAux [">", "x"] {} =
      parseAux []
        (if (">" : String) = "<" then { in_file := "x" }
         else { out_file := "x", append := (">" : String) = ">>" })
    ∧ Command.argv { argv := ["a"] } = scanArgv ["a"]
    ∧ scanArgv ["<", "f", "a"] = scanArgv ["a"]
    ∧ (process_line envHOME [] "<").2 =
      (if ("Syntax error: missing file after redirection " ++ "<") =
          "Empty command" then .emptyCommand
       else .syntaxError
         ("Syntax error: missing file after redirection " ++ "<")) :=
  ⟨c4_redirection_errors.1 {} "<" (Or.inl rfl),
   c4_redirection_errors.2.1 {} ">" "x" [] (Or.inr (Or.inl rfl)),
   c4_redirection_errors.2.2.1 ["a"] { argv := ["a"] } (by decide),
   c4_redirection_errors.2.2.2.1 "<" "f" ["a"] (Or.inl rfl),
   c4_redirection_errors.2.2.2.2.2.1 envHOME [] "<"
     ("Syntax error: missing file after redirection " ++ "<") (by decide)
     (by simp [tokenize, tokenizeAux, expand_env, expand_env_in_token,
       expandAux, parse_command, parseAux, is_space, dq, squote, bsl,
       envHOME, envVal, isNameStart, isNameChar])⟩


/-- Counterexample for C2: the token `$X` is not a redirection operator, yet
with `X=>` in the environment the expanded token sequence of
`echo $X f` parses with `f` recorded as the output file — expansion runs
before parsing, so an expanded value equal to `>` is treated as a
redirection operator. -/
theorem c2_expansion_counterexample :
    ("$X" : String) ≠ ">"
    ∧ expand_env envX ["echo", "$X", "f"] = ["echo", ">", "f"]
    ∧ parse_command (expand_env envX ["echo", "$X", "f"]) =
      .ok { argv := ["echo"], in_file := "", out_file := "f", append := false }
    ∧ parse_command ["echo", "$X", "f"] =
      .ok { argv := ["echo", "$X", "f"], in_file := "", out_file := "",
            append := false } := by
  have he : expand_env envX ["echo", "$X", "f"] = ["echo", ">", "f"] := by
    simp [expand_env, expand_env_in_token, expandAux, envVal, envX,
      isNameStart, isNameChar]
  refine ⟨by decide, he, ?_, by decide⟩
  rw [he]
  decide

/-- C2 amended: expansion is element-wise and order/length-preserving, so a
variable value can never split one token into several or otherwise
introduce a new word boundary; but because expansion runs before parsing, a
token whose expanded value is exactly `<`, `>` or `>>` is treated as a
redirection operator by the parser. -/
theorem c2_expansion_no_word_split_amended :
    (∀ env ts, (expand_env env ts).length = ts.length)
    ∧ (∀ env ts i, i < ts.length →
        (expand_env env ts).getD i "" =
          expand_env_in_token env (ts.getD i ""))
    ∧ expand_env envX ["echo", "$X", "f"] = ["echo", ">", "f"]
    ∧ parse_command (expand_env envX ["echo", "$X", "f"]) =
      .ok { argv := ["echo"], in_file := "", out_file := "f",
            append := false } := by
  have he : expand_env envX ["echo", "$X", "f"] = ["echo", ">", "f"] := by
    simp [expand_env, expand_env_in_token, expandAux, envVal, envX,
      isNameStart, isNameChar]
  refine ⟨expand_env_length, expand_env_getD, he, ?_⟩
  rw [he]
  decide

/-- Witness for the amended C2 at a concrete index. -/
theorem c2_expansion_no_word_split_amended_witness :
    (expand_env envX ["echo", "$X", "f"]).getD 1 "" =
      expand_env_in_token envX (["echo", "$X", "f"].getD 1 "") :=
  c2_expansion_no_word_split_amended.2.1 envX ["echo", "$X", "f"] 1 (by decide)

/-- Counterexample for C1: when `fork` itself fails, `run_external` returns
1, not 127. -/
theorem c1_fork_failure_counterexample :
    run_external
      { forkOk := false, inOpenOk := true, inDupOk := true,
        outOpenOk := true, outDupOk := true, execOk := true, waitOk := true,
        progStatus := .exited 0 }
      { argv := ["ls"] } = 1
    ∧ (1 : Nat) ≠ 127 := by
  constructor
  · decide
  · decide

/-- C1 amended: the exit status of an external command is the child's own
exit code (its low 8 bits) on normal termination, 1 on abnormal
termination, 127 on redirect failure or load failure; a failed `fork` (and
a failed `waitpid`) returns 1, not 127. -/
theorem c1_exit_status_translation_amended :
    (∀ w cmd code, w.forkOk = true → w.waitOk = true →
        child_status w cmd = .exited code → run_external w cmd = code % 256)
    ∧ (∀ w cmd sig, w.forkOk = true → w.waitOk = true →
        child_status w cmd = .signaled sig → run_external w cmd = 1)
    ∧ (∀ w cmd, w.forkOk = true → w.waitOk = true → w.execOk = false →
        run_external w cmd = 127)
    ∧ (∀ w cmd, w.forkOk = true → w.waitOk = true → cmd.in_file ≠ "" →
        (w.inOpenOk = false ∨ w.inDupOk = false) → run_external w cmd = 127)
    ∧ (∀ w cmd, w.forkOk = true → w.waitOk = true → cmd.out_file ≠ "" →
        (w.outOpenOk = false ∨ w.outDupOk = false) →
        run_external w cmd = 127)
    ∧ (∀ w cmd, w.forkOk = false → run_external w cmd = 1)
    ∧ (∀ w cmd, w.forkOk = true → w.waitOk = false →
        run_external w cmd = 1) := by
  refine ⟨?_, ?_, ?_, ?_, ?_, ?_, ?_⟩
  · intro w cmd code hf hw hc
    simp [run_external, hf, hw, hc]
  · intro w cmd sig hf hw hc
    simp [run_external, hf, hw, hc]
  · intro w cmd hf hw he
    have hc : child_status w cmd = .exited 127 := by
      unfold child_status
      split_ifs <;> simp_all
    simp [run_external, hf, hw, hc]
  · intro w cmd hf hw hin hfail
    have hc : child_status w cmd = .exited 127 := by
      unfold child_status
      rcases hfail with h | h <;> split_ifs <;> simp_all
    simp [run_external, hf, hw, hc]
  · intro w cmd hf hw hout hfail
    have hc : child_status w cmd = .exited 127 := by
      unfold child_status
      rcases hfail with h | h <;> split_ifs <;> simp_all
    simp [run_external, hf, hw, hc]
  · intro w cmd hf
    simp [run_external, hf]
  · intro w cmd hf hw
    simp [run_external, hf, hw]

/-- Witness for the amended C1 at concrete worlds: a normal exit with code
300 is reported as 300 mod 256 = 44, a signal as 1, a load failure as 127,
an input-redirect failure as 127, an output-redirect failure as 127, a fork
failure as 1 and a wait failure as 1. -/
theorem c1_exit_status_translation_amended_witness :
    run_external
      { forkOk := true, inOpenOk := true, inDupOk := true, outOpenOk := true,
        outDupOk := true, execOk := true, waitOk := true,
        progStatus := .exited 300 } { argv := ["ls"] } = 300 % 256
    ∧ run_external
      { forkOk := true, inOpenOk := true, inDupOk := true, outOpenOk := true,
        outDupOk := true, execOk := true, waitOk := true,
        progStatus := .signaled 9 } { argv := ["ls"] } = 1
    ∧ run_external
      { forkOk := true, inOpenOk := true, inDupOk := true, outOpenOk := true,
        outDupOk := true, execOk := false, waitOk := true,
        progStatus := .exited 0 } { argv := ["nosuch"] } = 127
    ∧ run_external
      { forkOk := true, inOpenOk := false, inDupOk := true, outOpenOk := true,
        outDupOk := true, execOk := true, waitOk := true,
        progStatus := .exited 0 } { argv := ["cat"], in_file := "in" } = 127
    ∧ run_external
      { forkOk := true, inOpenOk := true, inDupOk := true, outOpenOk := false,
        outDupOk := true, execOk := true, waitOk := true,
        progStatus := .exited 0 } { argv := ["ls"], out_file := "out" } = 127
    ∧ run_external
      { forkOk := false, inOpenOk := true, inDupOk := true, outOpenOk := true,
        outDupOk := true, execOk := true, waitOk := true,
        progStatus := .exited 0 } { argv := ["ls"] } = 1
    ∧ run_external
      { forkOk := true, inOpenOk := true, inDupOk := true, outOpenOk := true,
        outDupOk := true, execOk := true, waitOk := false,
        progStatus := .exited 0 } { argv := ["ls"] } = 1 :=
  ⟨c1_exit_status_translation_amended.1 _ _ 300 rfl rfl rfl,
   c1_exit_status_translation_amended.2.1 _ _ 9 rfl rfl rfl,
   c1_exit_status_translation_amended.2.2.1 _ _ rfl rfl rfl,
   c1_exit_status_translation_amended.2.2.2.1 _ _ rfl rfl (by decide)
     (Or.inl rfl),
   c1_exit_status_translation_amended.2.2.2.2.1 _ _ rfl rfl (by decide)
     (Or.inl rfl),
   c1_exit_status_translation_amended.2.2.2.2.2.1 _ _ rfl,
   c1_exit_status_translation_amended.2.2.2.2.2.2 _ _ rfl rfl⟩

/-- C7: a command whose `argv[0]` is a built-in name is handled in the
calling process — the dispatch never reaches `run_external`, the only
`fork` site — and its outcome is independent of the redirection fields of
the descriptor. -/
theorem c7_builtins_synchronous_ignore_redirection :
    ∀ w hist cmd i o a, is_builtin (cmd.argv.headD "") = true →
      spawns_child (execute w hist cmd) = false
      ∧ execute w hist cmd =
        execute w hist { cmd with in_file := i, out_file := o, append := a } := by
  intro w hist cmd i o a h
  cases hv : cmd.argv with
  | nil =>
    rw [hv] at h
    simp [is_builtin] at h
  | cons x rest =>
    rw [hv] at h
    rw [is_builtin] at h
    simp only [List.headD_cons, Bool.or_eq_true, decide_eq_true_eq] at h
    rcases h with ((((h | h) | h) | h) | h) <;>
      simp [execute, hv, h, spawns_child]


/-- Witness for C7: a `cd` with redirection fields set behaves as without
them and spawns no child. -/
theorem c7_builtins_synchronous_ignore_redirection_witness :
    spawns_child
      (execute wAllOk [] { argv := ["cd", "/tmp"], in_file := "x" }) = false
    ∧ execute wAllOk [] { argv := ["cd", "/tmp"], in_file := "x" } =
      execute wAllOk []
        { argv := ["cd", "/tmp"], in_file := "a", out_file := "b",
          append := true } :=
  c7_builtins_synchronous_ignore_redirection wAllOk [] _ "a" "b" true
    (by decide)

lemma process_line_hist (env : String → Option String) (hist : List String)
    (line : String) :
    (process_line env hist line).1 =
      if parses_ok env line then clip (hist ++ [line]) else hist := by
  by_cases hsp : is_all_spaces line
  · simp [process_line, parses_ok, hsp]
  · cases hp : parse_command (expand_env env (tokenize line)) with
    | ok cmd => simp [process_line, parses_ok, hsp, hp, ParseResult.isOk]
    | err e => simp [process_line, parses_ok, hsp, hp, ParseResult.isOk]

lemma clip_eq_lastN (h : List String) (hl : h.length ≤ 201) :
    clip h = lastN 200 h := by
  unfold clip lastN
  split_ifs with hgt
  · have h201 : h.length = 201 := by omega
    rw [h201]
    norm_num
  · have h0 : h.length - 200 = 0 := by omega
    simp [h0]

lemma lastN_length_le (n : Nat) (xs : List α) : (lastN n xs).length ≤ n := by
  simp [lastN, List.length_drop]
  omega

lemma lastN_append_lastN (n : Nat) (z r : List α) :
    lastN n (lastN n z ++ r) = lastN n (z ++ r) := by
  unfold lastN
  rw [← List.drop_append_of_le_length (Nat.sub_le z.length n)]
  rw [List.drop_drop]
  congr 1
  simp only [List.length_drop, List.length_append]
  omega

lemma run_lines_fold (env : String → Option String) :
    ∀ (lines : List String) (hist : List String), hist.length ≤ 200 →
      List.foldl (fun h l => (process_line env h l).1) hist lines =
        lastN 200 (hist ++ recorded_lines env lines) := by
  intro lines
  induction lines with
  | nil =>
    intro hist hl
    have h0 : hist.length - 200 = 0 := by omega
    simp [recorded_lines, lastN, h0]
  | cons l rest ih =>
    intro hist hl
    rw [List.foldl_cons, process_line_hist]
    by_cases hp : parses_ok env l
    · rw [if_pos hp]
      have hc : clip (hist ++ [l]) = lastN 200 (hist ++ [l]) :=
        clip_eq_lastN _ (by simp; omega)
      rw [hc, ih _ (lastN_length_le 200 _), lastN_append_lastN]
      have hrec : recorded_lines env (l :: rest) =
          l :: recorded_lines env rest := by
        simp [recorded_lines, List.filter_cons, hp]
      rw [hrec]
      simp
    · rw [if_neg hp, ih _ hl]
      have hrec : recorded_lines env (l :: rest) = recorded_lines env rest := by
        simp [recorded_lines, List.filter_cons, hp]
      rw [hrec]

/-- C6: one loop iteration appends the raw line to the history exactly when
the line parses successfully into a non-empty command (an all-whitespace
line, an Empty command outcome and a syntax error leave the history
untouched), and the `history` built-in prints exactly the recorded lines,
1-indexed, in submission order. -/
theorem c6_history_records_successful_lines :
    (∀ env hist line,
        (process_line env hist line).1 =
          if parses_ok env line then clip (hist ++ [line]) else hist)
    ∧ (∀ hist, (history_output hist).length = hist.length)
    ∧ (∀ hist i, i < hist.length →
        (history_output hist).getD i "" =
          toString (i + 1) ++ "  " ++ hist.getD i "") := by
  refine ⟨fun env hist line => process_line_hist env hist line, ?_, ?_⟩
  · intro hist
    simp [history_output]
  · intro hist i hi
    simp [history_output, List.getD_eq_getElem?_getD, List.getElem?_map,
      List.getElem?_range, hi]

/-- Witness for C6 at concrete inputs: `pwd` is recorded, a blank line and a
dangling-redirection line are not, and the third entry of a three-line
history is printed as entry 3. -/
theorem c6_history_records_successful_lines_witness :
    (process_line envHOME [] "pwd").1 =
      (if parses_ok envHOME "pwd" then clip ([] ++ ["pwd"]) else [])
    ∧ (process_line envHOME ["pwd"] "   ").1 =
      (if parses_ok envHOME "   " then clip (["pwd"] ++ ["   "])
       else ["pwd"])
    ∧ (process_line envHOME ["pwd"] "cmd <").1 =
      (if parses_ok envHOME "cmd <" then clip (["pwd"] ++ ["cmd <"])
       else ["pwd"])
    ∧ (history_output ["a", "b", "c"]).getD 2 "" =
      toString (2 + 1) ++ "  " ++ ["a", "b", "c"].getD 2 "" :=
  ⟨c6_history_records_successful_lines.1 envHOME [] "pwd",
   c6_history_records_successful_lines.1 envHOME ["pwd"] "   ",
   c6_history_records_successful_lines.1 envHOME ["pwd"] "cmd <",
   c6_history_records_successful_lines.2.2 ["a", "b", "c"] 2 (by decide)⟩

/-- C10: the history never exceeds 200 entries — each iteration preserves
the bound, and feeding any line sequence to the loop leaves exactly the
most recent (at most 200) successfully parsed lines, in submission
order. -/
theorem c10_history_bounded_at_200 :
    (∀ env hist line, hist.length ≤ 200 →
        ((process_line env hist line).1).length ≤ 200)
    ∧ (∀ env lines,
        run_lines env lines = lastN 200 (recorded_lines env lines))
    ∧ (∀ env lines, (run_lines env lines).length ≤ 200) := by
  have key : ∀ env lines,
      run_lines env lines = lastN 200 (recorded_lines env lines) := by
    intro env lines
    have h := run_lines_fold env lines [] (by simp)
    simpa [run_lines] using h
  refine ⟨?_, key, ?_⟩
  · intro env hist line hl
    rw [process_line_hist]
    by_cases hp : parses_ok env line
    · rw [if_pos hp, clip_eq_lastN _ (by simp; omega)]
      exact lastN_length_le 200 _
    · rw [if_neg hp]
      exact hl
  · intro env lines
    rw [key]
    exact lastN_length_le 200 _

/-- Witness for C10: a full 200-entry history stays at 200 entries after one
more recorded line. -/
theorem c10_history_bounded_at_200_witness :
    (List.replicate 200 "x").length ≤ 200
    ∧ ((process_line envHOME (List.replicate 200 "x") "pwd").1).length ≤
      200 :=
  ⟨by rw [List.length_replicate],
   c10_history_bounded_at_200.1 envHOME (List.replicate 200 "x") "pwd"
     (by rw [List.length_replicate])⟩

end Shell
